import Mathlib

/-!
Verification of the Supabase-KV repository layer (src/db.ts).

The backend table kv_data maps a unique string key k to a JSON value v.
Strings are modelled as lists of characters (Key := List Char), so the
SQL LIKE prefix scan becomes List.isPrefixOf (the scan patterns used by
the code — "cookies", "apikeys", "logs", "settings" — contain no LIKE
wildcard, so LIKE 'p%' is exactly a string-prefix test).

Each collection's slice of the table is modelled as an association list
Store V := List (Key × V); the table's primary key keeps rows unique,
and kvSet (Supabase upsert) replaces the row in place when the key is
present.  Asynchronous effects are modelled by explicit state passing;
every call to Date.now() or crypto.randomUUID() becomes an explicit
parameter of the operation that performs it.
-/

namespace DbTs

/-- A backend key: the character sequence of the kv_data "k" column. -/
abbrev Key := List Char

/-- One key segment, string or number (the TS type (string | number)[]). -/
inductive Seg where
  | str (s : String)
  | num (n : Nat)
deriving DecidableEq

/-- JS String(x) for a segment: a string stays itself, a number prints
its decimal digits (timestamps are non-negative integers). -/
def Seg.render : Seg → List Char
  | .str s => s.toList
  | .num n => (Nat.repr n).toList

/-- Array.prototype.join(":") on the rendered segments. -/
def joinKey : List (List Char) → List Char
  | [] => []
  | [x] => x
  | x :: xs => x ++ ':' :: joinKey xs

/-- src/db.ts makeKey: key.join(":"). -/
def makeKey (segs : List Seg) : Key := joinKey (segs.map Seg.render)

/-- One collection's slice of the kv_data table, in row order. -/
abbrev Store (V : Type) := List (Key × V)

/-- src/db.ts kvGet: select v where k = key, .single(); absence and
backend errors both yield null.  The primary key keeps at most one row
per key, so taking the first match models .single(). -/
def kvGet {V : Type} (s : Store V) (k : Key) : Option V :=
  (s.find? fun e => decide (e.1 = k)).map (·.2)

/-- src/db.ts kvSet: upsert {k, v} — replace the row in place when the
key is present, append a fresh row otherwise. -/
def kvSet {V : Type} (s : Store V) (k : Key) (v : V) : Store V :=
  if s.any (fun e => decide (e.1 = k)) then
    s.map fun e => if e.1 = k then (k, v) else e
  else s ++ [(k, v)]

/-- src/db.ts kvDelete: delete where k = key. -/
def kvDelete {V : Type} (s : Store V) (k : Key) : Store V :=
  s.filter fun e => decide (¬ e.1 = k)

/-- src/db.ts kvList: select * where k LIKE 'p%', i.e. every row whose
key starts with the rendered prefix. -/
def kvList {V : Type} (s : Store V) (p : Key) : Store V :=
  s.filter fun e => p.isPrefixOf e.1

/-! Basic lemmas about the KV primitives. -/

theorem isPrefixOf_append_self (l r : List Char) : l.isPrefixOf (l ++ r) = true := by
  induction l with
  | nil => simp
  | cons a l ih => simp [List.isPrefixOf_cons₂, ih]

theorem isPrefixOf_append_both (p l₁ l₂ : List Char) :
    (p ++ l₁).isPrefixOf (p ++ l₂) = l₁.isPrefixOf l₂ := by
  induction p with
  | nil => rfl
  | cons a p ih => simpa [List.isPrefixOf_cons₂] using ih

theorem find?_replace_self {V : Type} (s : Store V) (k : Key) (v : V)
    (h : s.any (fun e => decide (e.1 = k)) = true) :
    (s.map fun e => if e.1 = k then (k, v) else e).find? (fun e => decide (e.1 = k)) =
      some (k, v) := by
  induction s with
  | nil => simp at h
  | cons e s ih =>
    rw [List.map_cons]
    by_cases he : e.1 = k
    · rw [if_pos he]
      exact List.find?_cons_of_pos _ (by simp)
    · have h' : s.any (fun e => decide (e.1 = k)) = true := by
        rw [List.any_cons] at h
        rcases Bool.or_eq_true_iff.mp h with h1 | h1
        · exact absurd (of_decide_eq_true h1) he
        · exact h1
      rw [if_neg he, List.find?_cons_of_neg _ (by simpa using he)]
      exact ih h'

theorem find?_replace_ne {V : Type} (s : Store V) (k k' : Key) (v : V) (h : k' ≠ k) :
    (s.map fun e => if e.1 = k then (k, v) else e).find? (fun e => decide (e.1 = k')) =
      s.find? (fun e => decide (e.1 = k')) := by
  induction s with
  | nil => rfl
  | cons e s ih =>
    rw [List.map_cons]
    by_cases he : e.1 = k
    · have h1 : ¬ (k = k') := fun hkk => h hkk.symm
      have h2 : ¬ (e.1 = k') := fun he' => h (he'.symm.trans he)
      rw [if_pos he, List.find?_cons_of_neg _ (by simpa using h1),
        List.find?_cons_of_neg _ (by simpa using h2)]
      exact ih
    · rw [if_neg he]
      by_cases he' : e.1 = k'
      · rw [List.find?_cons_of_pos _ (by simpa using he'),
          List.find?_cons_of_pos _ (by simpa using he')]
      · rw [List.find?_cons_of_neg _ (by simpa using he'),
          List.find?_cons_of_neg _ (by simpa using he')]
        exact ih

theorem kvGet_kvSet_self {V : Type} (s : Store V) (k : Key) (v : V) :
    kvGet (kvSet s k v) k = some v := by
  unfold kvSet
  by_cases h : s.any (fun e => decide (e.1 = k)) = true
  · rw [if_pos h]
    unfold kvGet
    rw [find?_replace_self s k v h]
    rfl
  · rw [if_neg h]
    have hnone : s.find? (fun e => decide (e.1 = k)) = none := by
      rw [List.find?_eq_none]
      intro e he
      simp only [List.any_eq_true, not_exists, not_and] at h
      simpa using h e he
    unfold kvGet
    rw [List.find?_append, hnone, List.find?_cons_of_pos _ (by simp)]
    rfl

theorem kvGet_kvSet_ne {V : Type} (s : Store V) (k k' : Key) (v : V) (h : k' ≠ k) :
    kvGet (kvSet s k v) k' = kvGet s k' := by
  unfold kvSet
  by_cases hc : s.any (fun e => decide (e.1 = k)) = true
  · rw [if_pos hc]
    unfold kvGet
    rw [find?_replace_ne s k k' v h]
  · rw [if_neg hc]
    unfold kvGet
    have hlast : List.find? (fun e => decide (e.1 = k')) [(k, v)] = none := by
      have hk : ¬ (k = k') := fun hkk => h hkk.symm
      rw [List.find?_cons_of_neg _ (by simpa using hk)]
      rfl
    rw [List.find?_append, hlast, Option.or_none]

theorem kvGet_kvDelete_self {V : Type} (s : Store V) (k : Key) :
    kvGet (kvDelete s k) k = none := by
  unfold kvGet kvDelete
  have hnone : (s.filter fun e => decide (¬ e.1 = k)).find? (fun e => decide (e.1 = k)) = none := by
    rw [List.find?_eq_none]
    intro e he
    have := (List.mem_filter.mp he).2
    simp only [decide_eq_true_eq] at this ⊢
    exact this
  rw [hnone]
  rfl

theorem kvGet_kvDelete_ne {V : Type} (s : Store V) (k k' : Key) (h : k' ≠ k) :
    kvGet (kvDelete s k) k' = kvGet s k' := by
  unfold kvGet kvDelete
  congr 1
  induction s with
  | nil => rfl
  | cons e s ih =>
    by_cases he : e.1 = k
    · have hek : ¬ (e.1 = k') := fun he' => h (he'.symm.trans he)
      rw [List.filter_cons_of_neg (by simpa using he), List.find?_cons_of_neg _ (by simpa using hek)]
      exact ih
    · rw [List.filter_cons_of_pos (by simpa using he)]
      by_cases he' : e.1 = k'
      · rw [List.find?_cons_of_pos _ (by simpa using he'),
          List.find?_cons_of_pos _ (by simpa using he')]
      · rw [List.find?_cons_of_neg _ (by simpa using he'),
          List.find?_cons_of_neg _ (by simpa using he')]
        exact ih

/-! Array.prototype.sort.  The JS specification requires a stable sort;
with a consistent comparator the stable-sorted output is unique, so any
stable sorting algorithm is an exact model.  We model it as stable
insertion processing the input left to right, where the Bool relation
"before x y" decides cmp(x, y) < 0 for the supplied comparator cmp. -/

/-- Insert x into an already-processed list: x lands right before the
first element it must strictly precede, after everything else (elements
comparing equal keep their original relative order: stability). -/
def insertStable {α : Type} (before : α → α → Bool) (x : α) : List α → List α
  | [] => [x]
  | y :: ys => if before x y then x :: y :: ys else y :: insertStable before x ys

/-- Array.prototype.sort with a comparator: stable insertion over the
input, left to right. -/
def sortJS {α : Type} (before : α → α → Bool) (l : List α) : List α :=
  l.foldl (fun acc x => insertStable before x acc) []

theorem insertStable_perm {α : Type} (before : α → α → Bool) (x : α) (l : List α) :
    (insertStable before x l).Perm (x :: l) := by
  induction l with
  | nil => exact List.Perm.refl _
  | cons y ys ih =>
    unfold insertStable
    by_cases h : before x y = true
    · rw [if_pos h]
    · rw [if_neg h]
      exact (ih.cons y).trans (List.Perm.swap x y ys)

theorem foldl_insertStable_perm {α : Type} (before : α → α → Bool) (l acc : List α) :
    (l.foldl (fun acc x => insertStable before x acc) acc).Perm (acc ++ l) := by
  induction l generalizing acc with
  | nil => simp
  | cons a l ih =>
    refine ((ih (insertStable before a acc)).trans ?_)
    refine ((insertStable_perm before a acc).append_right l).trans ?_
    simpa using List.perm_middle.symm

theorem sortJS_perm {α : Type} (before : α → α → Bool) (l : List α) :
    (sortJS before l).Perm l := by
  simpa using foldl_insertStable_perm before l []

theorem sortJS_length {α : Type} (before : α → α → Bool) (l : List α) :
    (sortJS before l).length = l.length :=
  (sortJS_perm before l).length_eq

theorem insertStable_pairwise {α : Type} {before : α → α → Bool}
    (asym : ∀ a b, before a b = true → before b a = false)
    (tr : ∀ x y z, before x y = true → before z y = false → before z x = false)
    {x : α} {l : List α} (hl : l.Pairwise (fun a b => before b a = false)) :
    (insertStable before x l).Pairwise (fun a b => before b a = false) := by
  induction l with
  | nil => simp [insertStable]
  | cons y ys ih =>
    rcases List.pairwise_cons.mp hl with ⟨hy, hys⟩
    unfold insertStable
    by_cases h : before x y = true
    · rw [if_pos h]
      refine List.pairwise_cons.mpr ⟨?_, hl⟩
      intro b hb
      rcases List.mem_cons.mp hb with rfl | hb
      · exact asym x b h
      · exact tr x y b h (hy b hb)
    · rw [if_neg h]
      refine List.pairwise_cons.mpr ⟨?_, ih hys⟩
      intro b hb
      have hb' := (insertStable_perm before x ys).mem_iff.mp hb
      rcases List.mem_cons.mp hb' with rfl | hb2
      · exact Bool.not_eq_true _ ▸ h
      · exact hy b hb2

theorem sortJS_pairwise {α : Type} {before : α → α → Bool}
    (asym : ∀ a b, before a b = true → before b a = false)
    (tr : ∀ x y z, before x y = true → before z y = false → before z x = false)
    (l : List α) :
    (sortJS before l).Pairwise (fun a b => before b a = false) := by
  have main : ∀ (l acc : List α), acc.Pairwise (fun a b => before b a = false) →
      (l.foldl (fun acc x => insertStable before x acc) acc).Pairwise
        (fun a b => before b a = false) := by
    intro l
    induction l with
    | nil => intro acc h; simpa using h
    | cons a l ih =>
      intro acc h
      exact ih _ (insertStable_pairwise asym tr h)
  exact main l [] List.Pairwise.nil

/-! Entity records.  The record types live in src/types.ts, which is not
among the given sources; their fields are modelled from the spec (§3)
and from the field accesses in src/db.ts. -/

/-- Modelled from the spec (§3): the Cookie record
{id, value, isValid, failCount, isDefault, createdAt, updatedAt}. -/
structure Cookie where
  id : String
  value : String
  isValid : Bool
  failCount : Nat
  isDefault : Bool
  createdAt : Nat
  updatedAt : Nat
deriving DecidableEq

/-- The argument of CookieDB.add: Omit of Cookie without id, createdAt,
updatedAt. -/
structure CookieData where
  value : String
  isValid : Bool
  failCount : Nat
  isDefault : Bool
deriving DecidableEq

/-- A TS Partial of Cookie: every field optional. -/
structure CookiePatch where
  id : Option String := none
  value : Option String := none
  isValid : Option Bool := none
  failCount : Option Nat := none
  isDefault : Option Bool := none
  createdAt : Option Nat := none
  updatedAt : Option Nat := none
deriving DecidableEq

/-- Modelled from the spec (§3): the ApiKey record
{id, key, isEnabled, isDefault, createdAt, requestCount}. -/
structure ApiKey where
  id : String
  key : String
  isEnabled : Bool
  isDefault : Bool
  createdAt : Nat
  requestCount : Nat
deriving DecidableEq

/-- The argument of ApiKeyDB.add: Omit of ApiKey without id, createdAt,
requestCount. -/
structure ApiKeyData where
  key : String
  isEnabled : Bool
  isDefault : Bool
deriving DecidableEq

/-- A TS Partial of ApiKey: every field optional. -/
structure ApiKeyPatch where
  id : Option String := none
  key : Option String := none
  isEnabled : Option Bool := none
  isDefault : Option Bool := none
  createdAt : Option Nat := none
  requestCount : Option Nat := none
deriving DecidableEq

/-- Modelled from the spec (§3): the RequestLog record
{id, timestamp, path, ...}; only id, timestamp and path are ever read
by src/db.ts. -/
structure RequestLog where
  id : String
  timestamp : Nat
  path : String
deriving DecidableEq

/-- The argument of RequestLogDB.add: Omit of RequestLog without id. -/
structure RequestLogData where
  timestamp : Nat
  path : String
deriving DecidableEq

namespace CookieDB

/-- private static PREFIX = ["cookies"]. -/
def PREFIX : List Seg := [Seg.str "cookies"]

/-- src/db.ts CookieDB.get: kvGet([...PREFIX, id]). -/
def get (s : Store Cookie) (id : String) : Option Cookie :=
  kvGet s (makeKey (PREFIX ++ [Seg.str id]))

/-- src/db.ts CookieDB.getAll: prefix scan, values, sort ascending by
createdAt (comparator a.createdAt - b.createdAt). -/
def getAll (s : Store Cookie) : List Cookie :=
  sortJS (fun a b => decide (a.createdAt < b.createdAt))
    ((kvList s (makeKey PREFIX)).map (·.2))

/-- src/db.ts CookieDB.add; crypto.randomUUID() and Date.now() are the
parameters newId and now. -/
def add (d : CookieData) (newId : String) (now : Nat) (s : Store Cookie) :
    Cookie × Store Cookie :=
  let newCookie : Cookie :=
    { id := newId, value := d.value, isValid := d.isValid, failCount := d.failCount,
      isDefault := d.isDefault, createdAt := now, updatedAt := now }
  (newCookie, kvSet s (makeKey (PREFIX ++ [Seg.str newCookie.id])) newCookie)

/-- JS spread {...existing, ...updates, updatedAt: Date.now()}: a field
given by the patch overrides the existing one, and updatedAt is then
set to now regardless of the patch. -/
def spreadCookie (existing : Cookie) (u : CookiePatch) (now : Nat) : Cookie :=
  { id := u.id.getD existing.id
    value := u.value.getD existing.value
    isValid := u.isValid.getD existing.isValid
    failCount := u.failCount.getD existing.failCount
    isDefault := u.isDefault.getD existing.isDefault
    createdAt := u.createdAt.getD existing.createdAt
    updatedAt := now }

/-- src/db.ts CookieDB.update: read, spread-merge, bump updatedAt,
write back; false when the id is absent. -/
def update (id : String) (updates : CookiePatch) (now : Nat) (s : Store Cookie) :
    Bool × Store Cookie :=
  match get s id with
  | none => (false, s)
  | some existing =>
    (true, kvSet s (makeKey (PREFIX ++ [Seg.str id])) (spreadCookie existing updates now))

/-- src/db.ts CookieDB.delete: refuse (false, no write) when absent or
isDefault, else delete the row and return true. -/
def delete (s : Store Cookie) (id : String) : Bool × Store Cookie :=
  match get s id with
  | none => (false, s)
  | some existing =>
    if existing.isDefault then (false, s)
    else (true, kvDelete s (makeKey (PREFIX ++ [Seg.str id])))

/-- src/db.ts CookieDB.getValidCookies. -/
def getValidCookies (s : Store Cookie) : List Cookie :=
  (getAll s).filter (·.isValid)

/-- src/db.ts CookieDB.incrementFailCount; Config.MAX_FAIL_NUM (the
configured threshold, outside the given sources) is the parameter
maxFailNum, Date.now() of the inner update is now.  Silently returns
the store unchanged when the id is absent. -/
def incrementFailCount (maxFailNum : Nat) (id : String) (now : Nat)
    (s : Store Cookie) : Store Cookie :=
  match get s id with
  | none => s
  | some cookie =>
    let newFailCount := cookie.failCount + 1
    (update id
      { failCount := some newFailCount, isValid := some (decide (newFailCount < maxFailNum)) }
      now s).2

/-- src/db.ts CookieDB.resetFailCount: update with failCount 0,
isValid true. -/
def resetFailCount (id : String) (now : Nat) (s : Store Cookie) : Store Cookie :=
  (update id { failCount := some 0, isValid := some true } now s).2

end CookieDB

namespace ApiKeyDB

/-- private static PREFIX = ["apikeys"]. -/
def PREFIX : List Seg := [Seg.str "apikeys"]

/-- src/db.ts ApiKeyDB.getAll: prefix scan, values, sort ascending by
createdAt. -/
def getAll (s : Store ApiKey) : List ApiKey :=
  sortJS (fun a b => decide (a.createdAt < b.createdAt))
    ((kvList s (makeKey PREFIX)).map (·.2))

/-- src/db.ts ApiKeyDB.get. -/
def get (s : Store ApiKey) (id : String) : Option ApiKey :=
  kvGet s (makeKey (PREFIX ++ [Seg.str id]))

/-- src/db.ts ApiKeyDB.getByKey: first entry of getAll whose key field
matches, else null. -/
def getByKey (s : Store ApiKey) (key : String) : Option ApiKey :=
  (getAll s).find? (fun k => decide (k.key = key))

/-- src/db.ts ApiKeyDB.add; crypto.randomUUID() and Date.now() are the
parameters newId and now; requestCount starts at 0. -/
def add (d : ApiKeyData) (newId : String) (now : Nat) (s : Store ApiKey) :
    ApiKey × Store ApiKey :=
  let newKey : ApiKey :=
    { id := newId, key := d.key, isEnabled := d.isEnabled, isDefault := d.isDefault,
      createdAt := now, requestCount := 0 }
  (newKey, kvSet s (makeKey (PREFIX ++ [Seg.str newKey.id])) newKey)

/-- JS spread {...existing, ...updates} (no updatedAt on ApiKey). -/
def spreadApiKey (existing : ApiKey) (u : ApiKeyPatch) : ApiKey :=
  { id := u.id.getD existing.id
    key := u.key.getD existing.key
    isEnabled := u.isEnabled.getD existing.isEnabled
    isDefault := u.isDefault.getD existing.isDefault
    createdAt := u.createdAt.getD existing.createdAt
    requestCount := u.requestCount.getD existing.requestCount }

/-- src/db.ts ApiKeyDB.update. -/
def update (id : String) (updates : ApiKeyPatch) (s : Store ApiKey) :
    Bool × Store ApiKey :=
  match get s id with
  | none => (false, s)
  | some existing =>
    (true, kvSet s (makeKey (PREFIX ++ [Seg.str id])) (spreadApiKey existing updates))

/-- src/db.ts ApiKeyDB.delete: refuse when absent or isDefault. -/
def delete (s : Store ApiKey) (id : String) : Bool × Store ApiKey :=
  match get s id with
  | none => (false, s)
  | some existing =>
    if existing.isDefault then (false, s)
    else (true, kvDelete s (makeKey (PREFIX ++ [Seg.str id])))

/-- src/db.ts ApiKeyDB.incrementRequestCount: look the entry up by its
key field and bump requestCount; silently a no-op when no entry
matches. -/
def incrementRequestCount (key : String) (s : Store ApiKey) : Store ApiKey :=
  match getByKey s key with
  | none => s
  | some apiKey =>
    (update apiKey.id { requestCount := some (apiKey.requestCount + 1) } s).2

/-- src/db.ts ApiKeyDB.getEnabledKeys. -/
def getEnabledKeys (s : Store ApiKey) : List ApiKey :=
  (getAll s).filter (·.isEnabled)

end ApiKeyDB

namespace RequestLogDB

/-- private static PREFIX = ["logs"]. -/
def PREFIX : List Seg := [Seg.str "logs"]

/-- The key [...PREFIX, timestamp, id] a log row is written at and
deleted from. -/
def logKey (t : Nat) (id : String) : Key :=
  makeKey (PREFIX ++ [Seg.num t, Seg.str id])

/-- src/db.ts RequestLogDB.cleanup; Config.MAX_REQUEST_RECORD_NUM (the
configured retention cap, outside the given sources) is the parameter
maxRecord.  When more than maxRecord entries are stored, sort
descending by timestamp and delete everything beyond index
maxRecord. -/
def cleanup (maxRecord : Nat) (s : Store RequestLog) : Store RequestLog :=
  let logs := (kvList s (makeKey PREFIX)).map (·.2)
  if logs.length ≤ maxRecord then s
  else
    let toDelete := (sortJS (fun a b => decide (b.timestamp < a.timestamp)) logs).drop maxRecord
    toDelete.foldl (fun st lg => kvDelete st (logKey lg.timestamp lg.id)) s

/-- src/db.ts RequestLogDB.add: write at [...PREFIX, timestamp, id]
(crypto.randomUUID() is the parameter newId), then immediately run
cleanup. -/
def add (maxRecord : Nat) (d : RequestLogData) (newId : String) (s : Store RequestLog) :
    Store RequestLog :=
  let newLog : RequestLog := { id := newId, timestamp := d.timestamp, path := d.path }
  cleanup maxRecord (kvSet s (logKey newLog.timestamp newLog.id) newLog)

/-- src/db.ts RequestLogDB.getRecent: sort descending by timestamp and
truncate to limit. -/
def getRecent (limit : Nat) (s : Store RequestLog) : List RequestLog :=
  ((sortJS (fun a b => decide (b.timestamp < a.timestamp))
    ((kvList s (makeKey PREFIX)).map (·.2)))).take limit

/-- src/db.ts RequestLogDB.count. -/
def count (s : Store RequestLog) : Nat :=
  (kvList s (makeKey PREFIX)).length

/-- src/db.ts RequestLogDB.countByPath. -/
def countByPath (path : String) (s : Store RequestLog) : Nat :=
  ((kvList s (makeKey PREFIX)).filter (fun e => decide (e.2.path = path))).length

end RequestLogDB

/-- The fixed settings key ["settings", "system"]. -/
def settingsKey : Key := makeKey [Seg.str "settings", Seg.str "system"]

/-- The fixed model-mapping key ["settings", "models"]. -/
def modelsKey : Key := makeKey [Seg.str "settings", Seg.str "models"]

namespace SystemSettingsDB

/-- src/db.ts SystemSettingsDB.get: point lookup at the fixed key, with
the statically configured default (Config.getDefaultSystemSettings(),
outside the given sources) as the parameter dflt.  The record type is
abstract; the JS "|| dflt" falls back exactly on an absent record,
since a stored settings record is an object and objects are truthy. -/
def get {V : Type} (dflt : V) (s : Store V) : V × Store V :=
  ((kvGet s settingsKey).getD dflt, s)

/-- src/db.ts SystemSettingsDB.update: read current-or-default,
spread-merge (the abstract merge function applies the supplied fields
over its argument), write back, return the merged record. -/
def update {V : Type} (dflt : V) (merge : V → V) (s : Store V) : V × Store V :=
  let current := (get dflt s).1
  let updated := merge current
  (updated, kvSet s settingsKey updated)

end SystemSettingsDB

namespace ModelMappingDB

/-- src/db.ts ModelMappingDB.get: point lookup at the fixed key with
the static default list (Config.DEFAULT_MODELS_MAPS, outside the given
sources) as the parameter dflt; the element type is abstract. -/
def get {V : Type} (dflt : List V) (s : Store (List V)) : List V × Store (List V) :=
  ((kvGet s modelsKey).getD dflt, s)

/-- src/db.ts ModelMappingDB.update: a single upsert of the supplied
list at the fixed key; nothing is read and nothing is returned. -/
def update {V : Type} (mappings : List V) (s : Store (List V)) : Store (List V) :=
  kvSet s modelsKey mappings

end ModelMappingDB

/-- The two collections initializeDatabase touches. -/
structure InitState where
  cookies : Store Cookie
  apikeys : Store ApiKey
deriving DecidableEq

/-- src/db.ts initializeDatabase.  The static seed lists
(Config.DEFAULT_CTO_COOKIES and Config.DEFAULT_CHAT_APIKEYS, outside
the given sources) are the parameters defaultCookies and defaultKeys;
the crypto.randomUUID() and Date.now() results of the i-th seeding add
are the i-th entries of the id and time lists. -/
def initializeDatabase (defaultCookies defaultKeys : List String)
    (cookieIds : List String) (cookieTimes : List Nat)
    (keyIds : List String) (keyTimes : List Nat)
    (st : InitState) : InitState :=
  let cookies := CookieDB.getAll st.cookies
  let cookieStore :=
    if cookies.length = 0 ∧ 0 < defaultCookies.length then
      (defaultCookies.zip (cookieIds.zip cookieTimes)).foldl
        (fun acc p =>
          (CookieDB.add { value := p.1, isValid := true, failCount := 0, isDefault := true }
            p.2.1 p.2.2 acc).2)
        st.cookies
    else st.cookies
  let keys := ApiKeyDB.getAll st.apikeys
  let keyStore :=
    if keys.length = 0 then
      (defaultKeys.zip (keyIds.zip keyTimes)).foldl
        (fun acc p =>
          (ApiKeyDB.add { key := p.1, isEnabled := true, isDefault := true }
            p.2.1 p.2.2 acc).2)
        st.apikeys
    else st.apikeys
  { cookies := cookieStore, apikeys := keyStore }

/-! Helper lemmas about the repository operations. -/

/-- After a successful CookieDB.update, reading the id back yields the
spread-merged record. -/
theorem CookieDB.update_get_self (id : String) (updates : CookiePatch) (now : Nat)
    (s : Store Cookie) (c : Cookie) (h : CookieDB.get s id = some c) :
    CookieDB.get (CookieDB.update id updates now s).2 id =
      some (CookieDB.spreadCookie c updates now) := by
  unfold CookieDB.update
  rw [h]
  unfold CookieDB.get
  exact kvGet_kvSet_self s _ _

/-- incrementFailCount on a present id rewrites it to the spread of the
bumped failCount and recomputed validity. -/
theorem CookieDB.incrementFailCount_get_self (maxFailNum : Nat) (id : String) (now : Nat)
    (s : Store Cookie) (c : Cookie) (h : CookieDB.get s id = some c) :
    CookieDB.get (CookieDB.incrementFailCount maxFailNum id now s) id =
      some (CookieDB.spreadCookie c
        { failCount := some (c.failCount + 1),
          isValid := some (decide (c.failCount + 1 < maxFailNum)) } now) := by
  unfold CookieDB.incrementFailCount
  rw [h]
  exact CookieDB.update_get_self id _ now s c h

/-- resetFailCount on a present id rewrites it to failCount 0,
isValid true. -/
theorem CookieDB.resetFailCount_get_self (id : String) (now : Nat)
    (s : Store Cookie) (c : Cookie) (h : CookieDB.get s id = some c) :
    CookieDB.get (CookieDB.resetFailCount id now s) id =
      some (CookieDB.spreadCookie c { failCount := some 0, isValid := some true } now) := by
  unfold CookieDB.resetFailCount
  exact CookieDB.update_get_self id _ now s c h

/-- C2: with maxFailThreshold = 3, three sequential recordFailure
(incrementFailCount) calls on a fresh cookie (failCount = 0,
isValid = true) take failCount through 1, 2, 3, the first two leaving
isValid = true and the third leaving isValid = false; a subsequent
reset (resetFailCount) leaves failCount = 0 and isValid = true. -/
theorem C2_health_state_machine (s : Store Cookie) (id : String) (c : Cookie)
    (n1 n2 n3 n4 : Nat) (hget : CookieDB.get s id = some c)
    (hfc : c.failCount = 0) (_hval : c.isValid = true) :
    ((CookieDB.get (CookieDB.incrementFailCount 3 id n1 s) id).map
        (fun c => (c.failCount, c.isValid)) = some (1, true)) ∧
    ((CookieDB.get (CookieDB.incrementFailCount 3 id n2
          (CookieDB.incrementFailCount 3 id n1 s)) id).map
        (fun c => (c.failCount, c.isValid)) = some (2, true)) ∧
    ((CookieDB.get (CookieDB.incrementFailCount 3 id n3
          (CookieDB.incrementFailCount 3 id n2
            (CookieDB.incrementFailCount 3 id n1 s))) id).map
        (fun c => (c.failCount, c.isValid)) = some (3, false)) ∧
    ((CookieDB.get (CookieDB.resetFailCount id n4
          (CookieDB.incrementFailCount 3 id n3
            (CookieDB.incrementFailCount 3 id n2
              (CookieDB.incrementFailCount 3 id n1 s)))) id).map
        (fun c => (c.failCount, c.isValid)) = some (0, true)) := by
  have h1 := CookieDB.incrementFailCount_get_self 3 id n1 s c hget
  rw [hfc] at h1
  simp only [CookieDB.spreadCookie, Option.getD_some, Option.getD_none] at h1
  have h2 := CookieDB.incrementFailCount_get_self 3 id n2 _ _ h1
  simp only [CookieDB.spreadCookie, Option.getD_some, Option.getD_none] at h2
  have h3 := CookieDB.incrementFailCount_get_self 3 id n3 _ _ h2
  simp only [CookieDB.spreadCookie, Option.getD_some, Option.getD_none] at h3
  have h4 := CookieDB.resetFailCount_get_self id n4 _ _ h3
  simp only [CookieDB.spreadCookie, Option.getD_some, Option.getD_none] at h4
  refine ⟨?_, ?_, ?_, ?_⟩
  · rw [h1]; rfl
  · rw [h2]; rfl
  · rw [h3]; rfl
  · rw [h4]; rfl

/-- Witness for C2 at a concrete one-cookie store. -/
theorem C2_health_state_machine_witness :
    ((CookieDB.get (CookieDB.resetFailCount "a" 9
          (CookieDB.incrementFailCount 3 "a" 7
            (CookieDB.incrementFailCount 3 "a" 6
              (CookieDB.incrementFailCount 3 "a" 5
                [(makeKey (CookieDB.PREFIX ++ [Seg.str "a"]),
                  { id := "a", value := "v", isValid := true, failCount := 0,
                    isDefault := true, createdAt := 1, updatedAt := 1 })])))) "a").map
        (fun c => (c.failCount, c.isValid)) = some (0, true)) :=
  (C2_health_state_machine
    [(makeKey (CookieDB.PREFIX ++ [Seg.str "a"]),
      { id := "a", value := "v", isValid := true, failCount := 0,
        isDefault := true, createdAt := 1, updatedAt := 1 })]
    "a" _ 5 6 7 9 rfl rfl rfl).2.2.2

/-- C3: delete(id) on an absent entity or one with isDefault = true
returns false and performs no write (the store is unchanged, so a
default entity remains retrievable); otherwise it removes the record
and returns true — for both the cookie and the API key repository. -/
theorem C3_delete_default_protection (cs : Store Cookie) (ks : Store ApiKey) (id : String) :
    (CookieDB.get cs id = none → CookieDB.delete cs id = (false, cs)) ∧
    (∀ c, CookieDB.get cs id = some c → c.isDefault = true →
      CookieDB.delete cs id = (false, cs) ∧
      CookieDB.get (CookieDB.delete cs id).2 id = some c) ∧
    (∀ c, CookieDB.get cs id = some c → c.isDefault = false →
      (CookieDB.delete cs id).1 = true ∧
      CookieDB.get (CookieDB.delete cs id).2 id = none) ∧
    (ApiKeyDB.get ks id = none → ApiKeyDB.delete ks id = (false, ks)) ∧
    (∀ a, ApiKeyDB.get ks id = some a → a.isDefault = true →
      ApiKeyDB.delete ks id = (false, ks) ∧
      ApiKeyDB.get (ApiKeyDB.delete ks id).2 id = some a) ∧
    (∀ a, ApiKeyDB.get ks id = some a → a.isDefault = false →
      (ApiKeyDB.delete ks id).1 = true ∧
      ApiKeyDB.get (ApiKeyDB.delete ks id).2 id = none) := by
  refine ⟨?_, ?_, ?_, ?_, ?_, ?_⟩
  · intro h; unfold CookieDB.delete; rw [h]
  · intro c hc hd
    have hdel : CookieDB.delete cs id = (false, cs) := by
      unfold CookieDB.delete
      simp only [hc]
      simp [hd]
    exact ⟨hdel, hdel ▸ hc⟩
  · intro c hc hd
    have hdel : CookieDB.delete cs id =
        (true, kvDelete cs (makeKey (CookieDB.PREFIX ++ [Seg.str id]))) := by
      unfold CookieDB.delete
      simp only [hc]
      simp [hd]
    rw [hdel]
    exact ⟨rfl, kvGet_kvDelete_self cs _⟩
  · intro h; unfold ApiKeyDB.delete; rw [h]
  · intro a ha hd
    have hdel : ApiKeyDB.delete ks id = (false, ks) := by
      unfold ApiKeyDB.delete
      simp only [ha]
      simp [hd]
    exact ⟨hdel, hdel ▸ ha⟩
  · intro a ha hd
    have hdel : ApiKeyDB.delete ks id =
        (true, kvDelete ks (makeKey (ApiKeyDB.PREFIX ++ [Seg.str id]))) := by
      unfold ApiKeyDB.delete
      simp only [ha]
      simp [hd]
    rw [hdel]
    exact ⟨rfl, kvGet_kvDelete_self ks _⟩

/-- Witness for C3: a default cookie survives delete with result false,
and a non-default API key is deleted with result true. -/
theorem C3_delete_default_protection_witness :
    (CookieDB.delete
        [(makeKey (CookieDB.PREFIX ++ [Seg.str "d"]),
          { id := "d", value := "v", isValid := true, failCount := 0,
            isDefault := true, createdAt := 1, updatedAt := 1 })] "d" =
      (false,
        [(makeKey (CookieDB.PREFIX ++ [Seg.str "d"]),
          { id := "d", value := "v", isValid := true, failCount := 0,
            isDefault := true, createdAt := 1, updatedAt := 1 })])) ∧
    ((ApiKeyDB.delete
        [(makeKey (ApiKeyDB.PREFIX ++ [Seg.str "x"]),
          { id := "x", key := "k", isEnabled := true, isDefault := false,
            createdAt := 1, requestCount := 0 })] "x").1 = true ∧
      ApiKeyDB.get (ApiKeyDB.delete
        [(makeKey (ApiKeyDB.PREFIX ++ [Seg.str "x"]),
          { id := "x", key := "k", isEnabled := true, isDefault := false,
            createdAt := 1, requestCount := 0 })] "x").2 "x" = none) :=
  ⟨((C3_delete_default_protection
      [(makeKey (CookieDB.PREFIX ++ [Seg.str "d"]),
        { id := "d", value := "v", isValid := true, failCount := 0,
          isDefault := true, createdAt := 1, updatedAt := 1 })]
      [] "d").2.1 _ rfl rfl).1,
    (C3_delete_default_protection []
      [(makeKey (ApiKeyDB.PREFIX ++ [Seg.str "x"]),
        { id := "x", key := "k", isEnabled := true, isDefault := false,
          createdAt := 1, requestCount := 0 })] "x").2.2.2.2.2 _ rfl rfl⟩

/-- C6: when no settings record is stored, SystemSettingsDB.get returns
the statically configured default and leaves the backend unchanged — a
raw kvGet of the backend afterwards still finds no record at the
settings key. -/
theorem C6_settings_fallback_no_writeback (V : Type) (dflt : V) (s : Store V)
    (h : kvGet s settingsKey = none) :
    SystemSettingsDB.get dflt s = (dflt, s) ∧
    kvGet (SystemSettingsDB.get dflt s).2 settingsKey = none := by
  unfold SystemSettingsDB.get
  rw [h]
  exact ⟨rfl, rfl⟩

/-- Witness for C6 on the empty backend. -/
theorem C6_settings_fallback_no_writeback_witness :
    SystemSettingsDB.get (7 : Nat) [] = (7, []) ∧
    kvGet (SystemSettingsDB.get (7 : Nat) []).2 settingsKey = none :=
  C6_settings_fallback_no_writeback Nat 7 [] rfl

/-- C10: incrementFailCount on an id with no stored cookie and
incrementRequestCount on a key value matching no stored API key are
silent no-ops: the store comes back unchanged (no write, every record
intact) and no error is signalled (both return only the store). -/
theorem C10_increment_missing_noop (cs : Store Cookie) (id : String)
    (maxFailNum now : Nat) (ks : Store ApiKey) (key : String) :
    (CookieDB.get cs id = none →
      CookieDB.incrementFailCount maxFailNum id now cs = cs) ∧
    (ApiKeyDB.getByKey ks key = none →
      ApiKeyDB.incrementRequestCount key ks = ks) := by
  constructor
  · intro h; unfold CookieDB.incrementFailCount; rw [h]
  · intro h; unfold ApiKeyDB.incrementRequestCount; rw [h]

/-- Witness for C10 on concrete stores without the looked-up id/key. -/
theorem C10_increment_missing_noop_witness :
    CookieDB.incrementFailCount 3 "missing" 5
      [(makeKey (CookieDB.PREFIX ++ [Seg.str "a"]),
        { id := "a", value := "v", isValid := true, failCount := 0,
          isDefault := true, createdAt := 1, updatedAt := 1 })] =
      [(makeKey (CookieDB.PREFIX ++ [Seg.str "a"]),
        { id := "a", value := "v", isValid := true, failCount := 0,
          isDefault := true, createdAt := 1, updatedAt := 1 })] ∧
    ApiKeyDB.incrementRequestCount "nokey"
      [(makeKey (ApiKeyDB.PREFIX ++ [Seg.str "x"]),
        { id := "x", key := "k", isEnabled := true, isDefault := false,
          createdAt := 1, requestCount := 0 })] =
      [(makeKey (ApiKeyDB.PREFIX ++ [Seg.str "x"]),
        { id := "x", key := "k", isEnabled := true, isDefault := false,
          createdAt := 1, requestCount := 0 })] :=
  ⟨(C10_increment_missing_noop
      [(makeKey (CookieDB.PREFIX ++ [Seg.str "a"]),
        { id := "a", value := "v", isValid := true, failCount := 0,
          isDefault := true, createdAt := 1, updatedAt := 1 })]
      "missing" 3 5 [] "nokey").1 rfl,
    (C10_increment_missing_noop [] "missing" 3 5
      [(makeKey (ApiKeyDB.PREFIX ++ [Seg.str "x"]),
        { id := "x", key := "k", isEnabled := true, isDefault := false,
          createdAt := 1, requestCount := 0 })] "nokey").2 rfl⟩

/-! C4: key-codec sibling isolation. -/

theorem joinKey_cons_of_ne_nil (x : List Char) (l : List (List Char)) (h : l ≠ []) :
    joinKey (x :: l) = x ++ ':' :: joinKey l := by
  cases l with
  | nil => exact absurd rfl h
  | cons y ys => rfl

/-- C4 counterexample: the encoded form of ["cookies", "1"] IS a string
prefix of the encoded form of its unrelated sibling ["cookies", "10"],
and a prefix scan aimed at member "1" returns member "10"'s row. -/
theorem C4_sibling_isolation_counterexample :
    (makeKey [Seg.str "cookies", Seg.str "1"]).isPrefixOf
      (makeKey [Seg.str "cookies", Seg.str "10"]) = true ∧
    kvList [(makeKey [Seg.str "cookies", Seg.str "10"], (0 : Nat))]
      (makeKey [Seg.str "cookies", Seg.str "1"]) =
      [(makeKey [Seg.str "cookies", Seg.str "10"], 0)] := by
  exact ⟨by decide, by decide⟩

/-- C4 amended: the naive ":"-join codec gives no sibling isolation —
whenever one sibling's last segment extends another's string segment,
the shorter sequence's encoded form is a string prefix of the
sibling's, so a prefix scan for the one member can match the other. -/
theorem C4_sibling_isolation_amended (pre : List Seg) (s t : String) :
    (makeKey (pre ++ [Seg.str s])).isPrefixOf
      (makeKey (pre ++ [Seg.str (s ++ t)])) = true := by
  induction pre with
  | nil =>
    have h1 : makeKey ([] ++ [Seg.str s]) = s.toList := rfl
    have h2 : makeKey ([] ++ [Seg.str (s ++ t)]) = s.toList ++ t.toList := by
      show (s ++ t).toList = s.toList ++ t.toList
      simp [String.toList]
    rw [h1, h2]
    exact isPrefixOf_append_self _ _
  | cons x pre ih =>
    have hne : ∀ (a : Seg), (pre ++ [a]).map Seg.render ≠ [] := by
      intro a hcon
      simpa using congrArg List.length hcon
    have hx : ∀ (a : Seg), makeKey ((x :: pre) ++ [a]) =
        (Seg.render x ++ [':']) ++ makeKey (pre ++ [a]) := by
      intro a
      show joinKey (Seg.render x :: (pre ++ [a]).map Seg.render) = _
      rw [joinKey_cons_of_ne_nil _ _ (hne a), List.append_cons]
      rfl
    rw [hx (Seg.str s), hx (Seg.str (s ++ t)), isPrefixOf_append_both]
    exact ih

/-! C5: the cookie validity invariant. -/

/-- The spec (§3) cookie invariant: isValid equals
(failCount < maxFailThreshold). -/
def cookieInvariant (maxFailNum : Nat) (c : Cookie) : Prop :=
  c.isValid = decide (c.failCount < maxFailNum)

/-- C5 counterexample: CookieDB.update is a cookie-mutating operation,
yet updating only failCount to 3 (with threshold 3) on a cookie that
satisfies the invariant stores a cookie with isValid = true and
failCount = 3, violating it. -/
theorem C5_invariant_counterexample :
    cookieInvariant 3
      { id := "a", value := "v", isValid := true, failCount := 0,
        isDefault := false, createdAt := 0, updatedAt := 0 } ∧
    CookieDB.get
        (CookieDB.update "a" { failCount := some 3 } 1
          [(makeKey (CookieDB.PREFIX ++ [Seg.str "a"]),
            { id := "a", value := "v", isValid := true, failCount := 0,
              isDefault := false, createdAt := 0, updatedAt := 0 })]).2 "a" =
      some { id := "a", value := "v", isValid := true, failCount := 3,
             isDefault := false, createdAt := 0, updatedAt := 1 } ∧
    ¬ cookieInvariant 3
      { id := "a", value := "v", isValid := true, failCount := 3,
        isDefault := false, createdAt := 0, updatedAt := 1 } := by
  refine ⟨rfl, by decide, ?_⟩
  intro h
  simp [cookieInvariant] at h

/-- C5 amended: the health-tracker transitions (re)establish the
invariant on the cookie they touch — after incrementFailCount the
target always satisfies it, and after resetFailCount it satisfies it
whenever maxFailThreshold > 0 — but the generic add/update operations
write caller-supplied fields verbatim and can violate it. -/
theorem C5_invariant_amended (maxFailNum : Nat) (id : String) (now : Nat)
    (s : Store Cookie) (c' : Cookie) :
    (CookieDB.get (CookieDB.incrementFailCount maxFailNum id now s) id = some c' →
      cookieInvariant maxFailNum c') ∧
    (0 < maxFailNum →
      CookieDB.get (CookieDB.resetFailCount id now s) id = some c' →
      cookieInvariant maxFailNum c') := by
  constructor
  · intro h
    cases hg : CookieDB.get s id with
    | none =>
      unfold CookieDB.incrementFailCount at h
      simp only [hg] at h
      exact Option.noConfusion h
    | some c =>
      rw [CookieDB.incrementFailCount_get_self maxFailNum id now s c hg] at h
      have hc' := Option.some.inj h
      subst hc'
      unfold cookieInvariant CookieDB.spreadCookie
      rfl
  · intro hpos h
    cases hg : CookieDB.get s id with
    | none =>
      unfold CookieDB.resetFailCount CookieDB.update at h
      simp only [hg] at h
      exact Option.noConfusion h
    | some c =>
      rw [CookieDB.resetFailCount_get_self id now s c hg] at h
      have hc' := Option.some.inj h
      subst hc'
      unfold cookieInvariant CookieDB.spreadCookie
      simpa using hpos
  
/-- Witness for C5 amended: incrementing a fresh cookie at threshold 3
leaves a cookie satisfying the invariant. -/
theorem C5_invariant_amended_witness :
    cookieInvariant 3
      { id := "a", value := "v", isValid := true, failCount := 1,
        isDefault := false, createdAt := 0, updatedAt := 5 } :=
  (C5_invariant_amended 3 "a" 5
    [(makeKey (CookieDB.PREFIX ++ [Seg.str "a"]),
      { id := "a", value := "v", isValid := true, failCount := 0,
        isDefault := false, createdAt := 0, updatedAt := 0 })]
    { id := "a", value := "v", isValid := true, failCount := 1,
      isDefault := false, createdAt := 0, updatedAt := 5 }).1 (by decide)

/-! C8: the model-mapping update pattern. -/

/-- Modelled from the spec: §4.6 says "update(partial): read
current-or-default, shallow-merge, write, return merged result" and
that the ModelMapping collection "follows the identical pattern with a
list-typed value".  Shallow-merging a supplied list over the current
one overwrites index-wise and keeps the current tail; the default
(Config.DEFAULT_MODELS_MAPS, outside the given sources) is dflt. -/
def modelMappingUpdateSpecced {V : Type} (dflt : List V) (mappings : List V)
    (s : Store (List V)) : (List V) × Store (List V) :=
  let current := (kvGet s modelsKey).getD dflt
  let updated := mappings ++ current.drop mappings.length
  (updated, kvSet s modelsKey updated)

/-- C8 counterexample: on a store holding the list [5], the real
ModelMappingDB.update [] wholesale-replaces the stored list with [],
while the spec's read-merge-write pattern would keep [5]; the stored
results differ, so update does not follow the settings-update
pattern. -/
theorem C8_update_pattern_counterexample :
    kvGet (ModelMappingDB.update ([] : List Nat) [(modelsKey, [5])]) modelsKey =
      some [] ∧
    kvGet ((modelMappingUpdateSpecced [] ([] : List Nat) [(modelsKey, [5])]).2) modelsKey =
      some [5] ∧
    some ([] : List Nat) ≠ some [5] := by
  exact ⟨by decide, by decide, by decide⟩

/-- C8 amended: ModelMappingDB.update performs a single wholesale
upsert — afterwards the stored list is exactly the supplied argument,
independent of what was stored before — and it reads nothing and
returns nothing, unlike SystemSettingsDB.update's
read-merge-write-return pattern. -/
theorem C8_update_pattern_amended (V : Type) (mappings : List V) (s : Store (List V)) :
    kvGet (ModelMappingDB.update mappings s) modelsKey = some mappings :=
  kvGet_kvSet_self s modelsKey mappings

/-! C9: getByKey picks the first match in createdAt-ascending order. -/

/-- find? over a createdAt-sorted list returns a match of minimal
createdAt. -/
theorem find?_min_createdAt (L : List ApiKey) (key : String) (a : ApiKey)
    (hs : L.Pairwise (fun x y => x.createdAt ≤ y.createdAt))
    (h : L.find? (fun k => decide (k.key = key)) = some a) :
    a.key = key ∧ ∀ e ∈ L, e.key = key → a.createdAt ≤ e.createdAt := by
  induction L with
  | nil => exact Option.noConfusion h
  | cons y ys ih =>
    rcases List.pairwise_cons.mp hs with ⟨hy, hys⟩
    by_cases hk : y.key = key
    · rw [List.find?_cons_of_pos _ (by simpa using hk)] at h
      have ha := Option.some.inj h
      subst ha
      refine ⟨hk, ?_⟩
      intro e he _hek
      rcases List.mem_cons.mp he with rfl | he2
      · exact Nat.le_refl _
      · exact hy e he2
    · rw [List.find?_cons_of_neg _ (by simpa using hk)] at h
      rcases ih hys h with ⟨h1, h2⟩
      refine ⟨h1, ?_⟩
      intro e he hek
      rcases List.mem_cons.mp he with rfl | he2
      · exact absurd hek hk
      · exact h2 e he2 hek

/-- ApiKeyDB.getAll is sorted ascending by createdAt. -/
theorem ApiKeyDB.getAll_sorted (s : Store ApiKey) :
    (ApiKeyDB.getAll s).Pairwise (fun x y => x.createdAt ≤ y.createdAt) := by
  have hp := @sortJS_pairwise ApiKey
    (fun (a b : ApiKey) => decide (a.createdAt < b.createdAt))
    (by intro a b hab; simp at hab ⊢; omega)
    (by intro x y z h1 h2; simp at h1 h2 ⊢; omega)
    ((kvList s (makeKey ApiKeyDB.PREFIX)).map (·.2))
  exact hp.imp (by intro a b hab; simp at hab; omega)

/-- ApiKeyDB.getAll has the same members as the raw collection scan. -/
theorem ApiKeyDB.mem_getAll (s : Store ApiKey) (x : ApiKey) :
    x ∈ ApiKeyDB.getAll s ↔ x ∈ (kvList s (makeKey ApiKeyDB.PREFIX)).map (·.2) :=
  (sortJS_perm _ _).mem_iff

/-- C9: when several stored API key entries share the same key field,
getByKey returns a matching entry whose createdAt is minimal among all
stored matches (it takes the first match of the createdAt-ascending
getAll order); when no entry matches, it returns null. -/
theorem C9_getByKey_first_match (s : Store ApiKey) (key : String) :
    (ApiKeyDB.getByKey s key = none →
      ∀ e ∈ (kvList s (makeKey ApiKeyDB.PREFIX)).map (·.2), e.key ≠ key) ∧
    (∀ a, ApiKeyDB.getByKey s key = some a →
      a.key = key ∧
      ∀ e ∈ (kvList s (makeKey ApiKeyDB.PREFIX)).map (·.2),
        e.key = key → a.createdAt ≤ e.createdAt) := by
  constructor
  · intro h e he
    unfold ApiKeyDB.getByKey at h
    rw [List.find?_eq_none] at h
    have := h e ((ApiKeyDB.mem_getAll s e).mpr he)
    simpa using this
  · intro a ha
    unfold ApiKeyDB.getByKey at ha
    rcases find?_min_createdAt _ key a (ApiKeyDB.getAll_sorted s) ha with ⟨h1, h2⟩
    refine ⟨h1, ?_⟩
    intro e he hek
    exact h2 e ((ApiKeyDB.mem_getAll s e).mpr he) hek

/-- Witness for C9: two entries share key "k"; getByKey returns the one
created first. -/
theorem C9_getByKey_first_match_witness :
    ApiKeyDB.getByKey
      [(makeKey (ApiKeyDB.PREFIX ++ [Seg.str "x"]),
        { id := "x", key := "k", isEnabled := true, isDefault := false,
          createdAt := 5, requestCount := 0 }),
       (makeKey (ApiKeyDB.PREFIX ++ [Seg.str "y"]),
        { id := "y", key := "k", isEnabled := true, isDefault := false,
          createdAt := 1, requestCount := 0 })] "k" =
      some { id := "y", key := "k", isEnabled := true, isDefault := false,
             createdAt := 1, requestCount := 0 } ∧
    ({ id := "y", key := "k", isEnabled := true, isDefault := false,
       createdAt := 1, requestCount := 0 } : ApiKey).key = "k" ∧
    ({ id := "y", key := "k", isEnabled := true, isDefault := false,
       createdAt := 1, requestCount := 0 } : ApiKey).createdAt ≤ 5 :=
  ⟨by decide,
    ((C9_getByKey_first_match
      [(makeKey (ApiKeyDB.PREFIX ++ [Seg.str "x"]),
        { id := "x", key := "k", isEnabled := true, isDefault := false,
          createdAt := 5, requestCount := 0 }),
       (makeKey (ApiKeyDB.PREFIX ++ [Seg.str "y"]),
        { id := "y", key := "k", isEnabled := true, isDefault := false,
          createdAt := 1, requestCount := 0 })] "k").2
      { id := "y", key := "k", isEnabled := true, isDefault := false,
        createdAt := 1, requestCount := 0 } (by decide)).1,
    ((C9_getByKey_first_match
      [(makeKey (ApiKeyDB.PREFIX ++ [Seg.str "x"]),
        { id := "x", key := "k", isEnabled := true, isDefault := false,
          createdAt := 5, requestCount := 0 }),
       (makeKey (ApiKeyDB.PREFIX ++ [Seg.str "y"]),
        { id := "y", key := "k", isEnabled := true, isDefault := false,
          createdAt := 1, requestCount := 0 })] "k").2
      { id := "y", key := "k", isEnabled := true, isDefault := false,
        createdAt := 1, requestCount := 0 } (by decide)).2
      { id := "x", key := "k", isEnabled := true, isDefault := false,
        createdAt := 5, requestCount := 0 } (by decide) rfl⟩

/-! C7: bootstrap idempotence and seeding. -/

theorem kvSet_append_fresh {V : Type} (s : Store V) (k : Key) (v : V)
    (h : ∀ e ∈ s, e.1 ≠ k) : kvSet s k v = s ++ [(k, v)] := by
  unfold kvSet
  rw [if_neg]
  intro hc
  obtain ⟨e, he, hd⟩ := List.any_eq_true.mp hc
  exact h e he (of_decide_eq_true hd)

theorem cookieKey_eq (id : String) :
    makeKey (CookieDB.PREFIX ++ [Seg.str id]) = "cookies".toList ++ ':' :: id.toList := rfl

theorem apiKeyKey_eq (id : String) :
    makeKey (ApiKeyDB.PREFIX ++ [Seg.str id]) = "apikeys".toList ++ ':' :: id.toList := rfl

theorem cookieKey_inj (id1 id2 : String)
    (h : makeKey (CookieDB.PREFIX ++ [Seg.str id1]) =
      makeKey (CookieDB.PREFIX ++ [Seg.str id2])) : id1 = id2 := by
  rw [cookieKey_eq, cookieKey_eq] at h
  have h2 := List.append_cancel_left h
  injection h2 with _ h3
  exact String.ext h3

theorem apiKeyKey_inj (id1 id2 : String)
    (h : makeKey (ApiKeyDB.PREFIX ++ [Seg.str id1]) =
      makeKey (ApiKeyDB.PREFIX ++ [Seg.str id2])) : id1 = id2 := by
  rw [apiKeyKey_eq, apiKeyKey_eq] at h
  have h2 := List.append_cancel_left h
  injection h2 with _ h3
  exact String.ext h3

theorem zip_map_snd_fst {α β γ : Type} (as : List α) (bs : List β) (cs : List γ)
    (h1 : bs.length = as.length) (h2 : cs.length = as.length) :
    (as.zip (bs.zip cs)).map (fun p => p.2.1) = bs := by
  induction as generalizing bs cs with
  | nil =>
    cases bs with
    | nil => rfl
    | cons b bs => simp at h1
  | cons a as ih =>
    cases bs with
    | nil => simp at h1
    | cons b bs =>
      cases cs with
      | nil => simp at h2
      | cons c cs =>
        simp only [List.zip_cons_cons, List.map_cons]
        rw [ih bs cs (by simpa using h1) (by simpa using h2)]

theorem seedCookies_eq (L : List (String × String × Nat)) (s0 : Store Cookie)
    (hfresh : ∀ e ∈ s0, ∀ p ∈ L, e.1 ≠ makeKey (CookieDB.PREFIX ++ [Seg.str p.2.1]))
    (hnodup : (L.map (fun p => makeKey (CookieDB.PREFIX ++ [Seg.str p.2.1]))).Nodup) :
    L.foldl (fun acc p =>
      (CookieDB.add { value := p.1, isValid := true, failCount := 0, isDefault := true }
        p.2.1 p.2.2 acc).2) s0 =
    s0 ++ L.map (fun p =>
      (makeKey (CookieDB.PREFIX ++ [Seg.str p.2.1]),
       ({ id := p.2.1, value := p.1, isValid := true, failCount := 0, isDefault := true,
          createdAt := p.2.2, updatedAt := p.2.2 } : Cookie))) := by
  induction L generalizing s0 with
  | nil => simp
  | cons p L ih =>
    rw [List.map_cons] at hnodup
    have hfreshp : ∀ e ∈ s0, e.1 ≠ makeKey (CookieDB.PREFIX ++ [Seg.str p.2.1]) :=
      fun e he => hfresh e he p (List.mem_cons_self p L)
    have hstep : (CookieDB.add
        { value := p.1, isValid := true, failCount := 0, isDefault := true }
        p.2.1 p.2.2 s0).2 =
        s0 ++ [(makeKey (CookieDB.PREFIX ++ [Seg.str p.2.1]),
          ({ id := p.2.1, value := p.1, isValid := true, failCount := 0, isDefault := true,
             createdAt := p.2.2, updatedAt := p.2.2 } : Cookie))] := by
      unfold CookieDB.add
      exact kvSet_append_fresh s0 _ _ hfreshp
    have hfresh' : ∀ e ∈ s0 ++ [(makeKey (CookieDB.PREFIX ++ [Seg.str p.2.1]),
        ({ id := p.2.1, value := p.1, isValid := true, failCount := 0, isDefault := true,
           createdAt := p.2.2, updatedAt := p.2.2 } : Cookie))],
        ∀ q ∈ L, e.1 ≠ makeKey (CookieDB.PREFIX ++ [Seg.str q.2.1]) := by
      intro e he q hq
      rcases List.mem_append.mp he with he0 | he1
      · exact hfresh e he0 q (List.mem_cons_of_mem p hq)
      · rcases List.mem_singleton.mp he1 with rfl
        intro hcon
        exact (List.nodup_cons.mp hnodup).1
          (List.mem_map.mpr ⟨q, hq, hcon.symm⟩)
    rw [List.foldl_cons, hstep, ih _ hfresh' (List.nodup_cons.mp hnodup).2,
      List.append_assoc]
    rfl

theorem seedApiKeys_eq (L : List (String × String × Nat)) (s0 : Store ApiKey)
    (hfresh : ∀ e ∈ s0, ∀ p ∈ L, e.1 ≠ makeKey (ApiKeyDB.PREFIX ++ [Seg.str p.2.1]))
    (hnodup : (L.map (fun p => makeKey (ApiKeyDB.PREFIX ++ [Seg.str p.2.1]))).Nodup) :
    L.foldl (fun acc p =>
      (ApiKeyDB.add { key := p.1, isEnabled := true, isDefault := true }
        p.2.1 p.2.2 acc).2) s0 =
    s0 ++ L.map (fun p =>
      (makeKey (ApiKeyDB.PREFIX ++ [Seg.str p.2.1]),
       ({ id := p.2.1, key := p.1, isEnabled := true, isDefault := true,
          createdAt := p.2.2, requestCount := 0 } : ApiKey))) := by
  induction L generalizing s0 with
  | nil => simp
  | cons p L ih =>
    rw [List.map_cons] at hnodup
    have hfreshp : ∀ e ∈ s0, e.1 ≠ makeKey (ApiKeyDB.PREFIX ++ [Seg.str p.2.1]) :=
      fun e he => hfresh e he p (List.mem_cons_self p L)
    have hstep : (ApiKeyDB.add { key := p.1, isEnabled := true, isDefault := true }
        p.2.1 p.2.2 s0).2 =
        s0 ++ [(makeKey (ApiKeyDB.PREFIX ++ [Seg.str p.2.1]),
          ({ id := p.2.1, key := p.1, isEnabled := true, isDefault := true,
             createdAt := p.2.2, requestCount := 0 } : ApiKey))] := by
      unfold ApiKeyDB.add
      exact kvSet_append_fresh s0 _ _ hfreshp
    have hfresh' : ∀ e ∈ s0 ++ [(makeKey (ApiKeyDB.PREFIX ++ [Seg.str p.2.1]),
        ({ id := p.2.1, key := p.1, isEnabled := true, isDefault := true,
           createdAt := p.2.2, requestCount := 0 } : ApiKey))],
        ∀ q ∈ L, e.1 ≠ makeKey (ApiKeyDB.PREFIX ++ [Seg.str q.2.1]) := by
      intro e he q hq
      rcases List.mem_append.mp he with he0 | he1
      · exact hfresh e he0 q (List.mem_cons_of_mem p hq)
      · rcases List.mem_singleton.mp he1 with rfl
        intro hcon
        exact (List.nodup_cons.mp hnodup).1
          (List.mem_map.mpr ⟨q, hq, hcon.symm⟩)
    rw [List.foldl_cons, hstep, ih _ hfresh' (List.nodup_cons.mp hnodup).2,
      List.append_assoc]
    rfl

/-- C7: bootstrap is idempotent — when both collections are already
non-empty (as decided by getAll().length, not content) it performs no
write at all; and on an empty collection it inserts exactly one
default entry per configured default value, with isDefault = true (and
isValid = true, failCount = 0 for cookies; isEnabled = true,
requestCount = 0 for API keys). -/
theorem C7_bootstrap_idempotent (defaultCookies defaultKeys : List String)
    (cookieIds : List String) (cookieTimes : List Nat)
    (keyIds : List String) (keyTimes : List Nat) (st : InitState) :
    ((CookieDB.getAll st.cookies).length ≠ 0 →
      (ApiKeyDB.getAll st.apikeys).length ≠ 0 →
      initializeDatabase defaultCookies defaultKeys cookieIds cookieTimes
        keyIds keyTimes st = st) ∧
    (kvList st.cookies (makeKey CookieDB.PREFIX) = [] →
      cookieIds.Nodup →
      cookieIds.length = defaultCookies.length →
      cookieTimes.length = defaultCookies.length →
      (kvList (initializeDatabase defaultCookies defaultKeys cookieIds cookieTimes
          keyIds keyTimes st).cookies (makeKey CookieDB.PREFIX)).length =
        defaultCookies.length ∧
      ∀ e ∈ kvList (initializeDatabase defaultCookies defaultKeys cookieIds cookieTimes
          keyIds keyTimes st).cookies (makeKey CookieDB.PREFIX),
        e.2.isDefault = true ∧ e.2.isValid = true ∧ e.2.failCount = 0 ∧
          e.2.value ∈ defaultCookies) ∧
    (kvList st.apikeys (makeKey ApiKeyDB.PREFIX) = [] →
      keyIds.Nodup →
      keyIds.length = defaultKeys.length →
      keyTimes.length = defaultKeys.length →
      (kvList (initializeDatabase defaultCookies defaultKeys cookieIds cookieTimes
          keyIds keyTimes st).apikeys (makeKey ApiKeyDB.PREFIX)).length =
        defaultKeys.length ∧
      ∀ e ∈ kvList (initializeDatabase defaultCookies defaultKeys cookieIds cookieTimes
          keyIds keyTimes st).apikeys (makeKey ApiKeyDB.PREFIX),
        e.2.isDefault = true ∧ e.2.isEnabled = true ∧ e.2.requestCount = 0 ∧
          e.2.key ∈ defaultKeys) := by
  obtain ⟨cs, ks⟩ := st
  refine ⟨?_, ?_, ?_⟩
  · intro h1 h2
    simp only [initializeDatabase]
    rw [if_neg (fun hc => h1 hc.1), if_neg h2]
  · intro hempty hnodup hlen1 hlen2
    have hgetlen : (CookieDB.getAll cs).length = 0 := by
      unfold CookieDB.getAll
      rw [sortJS_length, List.length_map]
      exact congrArg List.length hempty
    cases defaultCookies with
    | nil =>
      have hres : (initializeDatabase [] defaultKeys cookieIds cookieTimes
          keyIds keyTimes ⟨cs, ks⟩).cookies = cs := by
        simp only [initializeDatabase]
        rw [if_neg (by simp)]
      rw [hres, hempty]
      exact ⟨rfl, by intro e he; exact absurd he (List.not_mem_nil e)⟩
    | cons d ds =>
      have hfresh : ∀ e ∈ cs, ∀ p ∈ (d :: ds).zip (cookieIds.zip cookieTimes),
          e.1 ≠ makeKey (CookieDB.PREFIX ++ [Seg.str p.2.1]) := by
        intro e he p _hp hcon
        have hpref : (makeKey CookieDB.PREFIX).isPrefixOf e.1 = true := by
          rw [hcon, cookieKey_eq]
          exact isPrefixOf_append_self _ _
        have hm : e ∈ kvList cs (makeKey CookieDB.PREFIX) :=
          List.mem_filter.mpr ⟨he, hpref⟩
        rw [hempty] at hm
        exact absurd hm (List.not_mem_nil e)
      have hids : ((d :: ds).zip (cookieIds.zip cookieTimes)).map (fun p => p.2.1) =
          cookieIds :=
        zip_map_snd_fst (d :: ds) cookieIds cookieTimes hlen1 hlen2
      have hnodupkeys : (((d :: ds).zip (cookieIds.zip cookieTimes)).map
          (fun p => makeKey (CookieDB.PREFIX ++ [Seg.str p.2.1]))).Nodup := by
        have hmm : (((d :: ds).zip (cookieIds.zip cookieTimes)).map
            (fun p => makeKey (CookieDB.PREFIX ++ [Seg.str p.2.1]))) =
            (((d :: ds).zip (cookieIds.zip cookieTimes)).map (fun p => p.2.1)).map
              (fun i => makeKey (CookieDB.PREFIX ++ [Seg.str i])) := by
          rw [List.map_map]
          rfl
        rw [hmm, hids]
        exact hnodup.map (fun a b hab => cookieKey_inj a b hab)
      have hres : (initializeDatabase (d :: ds) defaultKeys cookieIds cookieTimes
          keyIds keyTimes ⟨cs, ks⟩).cookies =
          cs ++ ((d :: ds).zip (cookieIds.zip cookieTimes)).map (fun p =>
            (makeKey (CookieDB.PREFIX ++ [Seg.str p.2.1]),
             ({ id := p.2.1, value := p.1, isValid := true, failCount := 0,
                isDefault := true, createdAt := p.2.2, updatedAt := p.2.2 } : Cookie))) := by
        simp only [initializeDatabase]
        rw [if_pos ⟨hgetlen, by simp⟩]
        exact seedCookies_eq _ cs hfresh hnodupkeys
      have hall : ∀ e ∈ ((d :: ds).zip (cookieIds.zip cookieTimes)).map (fun p =>
          (makeKey (CookieDB.PREFIX ++ [Seg.str p.2.1]),
           ({ id := p.2.1, value := p.1, isValid := true, failCount := 0,
              isDefault := true, createdAt := p.2.2, updatedAt := p.2.2 } : Cookie))),
          (makeKey CookieDB.PREFIX).isPrefixOf e.1 = true := by
        intro e he
        obtain ⟨p, _hp, rfl⟩ := List.mem_map.mp he
        rw [cookieKey_eq]
        exact isPrefixOf_append_self _ _
      have hkv : kvList (initializeDatabase (d :: ds) defaultKeys cookieIds cookieTimes
          keyIds keyTimes ⟨cs, ks⟩).cookies (makeKey CookieDB.PREFIX) =
          ((d :: ds).zip (cookieIds.zip cookieTimes)).map (fun p =>
            (makeKey (CookieDB.PREFIX ++ [Seg.str p.2.1]),
             ({ id := p.2.1, value := p.1, isValid := true, failCount := 0,
                isDefault := true, createdAt := p.2.2, updatedAt := p.2.2 } : Cookie))) := by
        rw [hres]
        unfold kvList
        rw [List.filter_append]
        have h0 : (cs.filter fun e => (makeKey CookieDB.PREFIX).isPrefixOf e.1) = [] :=
          hempty
        rw [h0, List.filter_eq_self.mpr hall, List.nil_append]
      constructor
      · rw [hkv, List.length_map, List.length_zip, List.length_zip]
        omega
      · intro e he
        rw [hkv] at he
        obtain ⟨p, hp, rfl⟩ := List.mem_map.mp he
        obtain ⟨pv, pid, pt⟩ := p
        exact ⟨rfl, rfl, rfl, (List.of_mem_zip hp).1⟩
  · intro hempty hnodup hlen1 hlen2
    have hgetlen : (ApiKeyDB.getAll ks).length = 0 := by
      unfold ApiKeyDB.getAll
      rw [sortJS_length, List.length_map]
      exact congrArg List.length hempty
    have hfresh : ∀ e ∈ ks, ∀ p ∈ defaultKeys.zip (keyIds.zip keyTimes),
        e.1 ≠ makeKey (ApiKeyDB.PREFIX ++ [Seg.str p.2.1]) := by
      intro e he p _hp hcon
      have hpref : (makeKey ApiKeyDB.PREFIX).isPrefixOf e.1 = true := by
        rw [hcon, apiKeyKey_eq]
        exact isPrefixOf_append_self _ _
      have hm : e ∈ kvList ks (makeKey ApiKeyDB.PREFIX) :=
        List.mem_filter.mpr ⟨he, hpref⟩
      rw [hempty] at hm
      exact absurd hm (List.not_mem_nil e)
    have hids : (defaultKeys.zip (keyIds.zip keyTimes)).map (fun p => p.2.1) = keyIds :=
      zip_map_snd_fst defaultKeys keyIds keyTimes hlen1 hlen2
    have hnodupkeys : ((defaultKeys.zip (keyIds.zip keyTimes)).map
        (fun p => makeKey (ApiKeyDB.PREFIX ++ [Seg.str p.2.1]))).Nodup := by
      have hmm : ((defaultKeys.zip (keyIds.zip keyTimes)).map
          (fun p => makeKey (ApiKeyDB.PREFIX ++ [Seg.str p.2.1]))) =
          ((defaultKeys.zip (keyIds.zip keyTimes)).map (fun p => p.2.1)).map
            (fun i => makeKey (ApiKeyDB.PREFIX ++ [Seg.str i])) := by
        rw [List.map_map]
        rfl
      rw [hmm, hids]
      exact hnodup.map (fun a b hab => apiKeyKey_inj a b hab)
    have hres : (initializeDatabase defaultCookies defaultKeys cookieIds cookieTimes
        keyIds keyTimes ⟨cs, ks⟩).apikeys =
        ks ++ (defaultKeys.zip (keyIds.zip keyTimes)).map (fun p =>
          (makeKey (ApiKeyDB.PREFIX ++ [Seg.str p.2.1]),
           ({ id := p.2.1, key := p.1, isEnabled := true, isDefault := true,
              createdAt := p.2.2, requestCount := 0 } : ApiKey))) := by
      simp only [initializeDatabase]
      rw [if_pos hgetlen]
      exact seedApiKeys_eq _ ks hfresh hnodupkeys
    have hall : ∀ e ∈ (defaultKeys.zip (keyIds.zip keyTimes)).map (fun p =>
        (makeKey (ApiKeyDB.PREFIX ++ [Seg.str p.2.1]),
         ({ id := p.2.1, key := p.1, isEnabled := true, isDefault := true,
            createdAt := p.2.2, requestCount := 0 } : ApiKey))),
        (makeKey ApiKeyDB.PREFIX).isPrefixOf e.1 = true := by
      intro e he
      obtain ⟨p, _hp, rfl⟩ := List.mem_map.mp he
      rw [apiKeyKey_eq]
      exact isPrefixOf_append_self _ _
    have hkv : kvList (initializeDatabase defaultCookies defaultKeys cookieIds cookieTimes
        keyIds keyTimes ⟨cs, ks⟩).apikeys (makeKey ApiKeyDB.PREFIX) =
        (defaultKeys.zip (keyIds.zip keyTimes)).map (fun p =>
          (makeKey (ApiKeyDB.PREFIX ++ [Seg.str p.2.1]),
           ({ id := p.2.1, key := p.1, isEnabled := true, isDefault := true,
              createdAt := p.2.2, requestCount := 0 } : ApiKey))) := by
      rw [hres]
      unfold kvList
      rw [List.filter_append]
      have h0 : (ks.filter fun e => (makeKey ApiKeyDB.PREFIX).isPrefixOf e.1) = [] :=
        hempty
      rw [h0, List.filter_eq_self.mpr hall, List.nil_append]
    constructor
    · rw [hkv, List.length_map, List.length_zip, List.length_zip]
      omega
    · intro e he
      rw [hkv] at he
      obtain ⟨p, hp, rfl⟩ := List.mem_map.mp he
      obtain ⟨pv, pid, pt⟩ := p
      exact ⟨rfl, rfl, rfl, (List.of_mem_zip hp).1⟩

/-- Witness for C7: on concrete non-empty collections, bootstrap
returns the state unchanged. -/
theorem C7_bootstrap_idempotent_witness :
    initializeDatabase ["c"] ["k"] ["i1"] [3] ["i2"] [4]
      { cookies := [(makeKey (CookieDB.PREFIX ++ [Seg.str "a"]),
          { id := "a", value := "garbage", isValid := false, failCount := 9,
            isDefault := false, createdAt := 1, updatedAt := 1 })],
        apikeys := [(makeKey (ApiKeyDB.PREFIX ++ [Seg.str "x"]),
          { id := "x", key := "oldk", isEnabled := false, isDefault := false,
            createdAt := 2, requestCount := 7 })] } =
      { cookies := [(makeKey (CookieDB.PREFIX ++ [Seg.str "a"]),
          { id := "a", value := "garbage", isValid := false, failCount := 9,
            isDefault := false, createdAt := 1, updatedAt := 1 })],
        apikeys := [(makeKey (ApiKeyDB.PREFIX ++ [Seg.str "x"]),
          { id := "x", key := "oldk", isEnabled := false, isDefault := false,
            createdAt := 2, requestCount := 7 })] } :=
  (C7_bootstrap_idempotent ["c"] ["k"] ["i1"] [3] ["i2"] [4]
    { cookies := [(makeKey (CookieDB.PREFIX ++ [Seg.str "a"]),
        { id := "a", value := "garbage", isValid := false, failCount := 9,
          isDefault := false, createdAt := 1, updatedAt := 1 })],
      apikeys := [(makeKey (ApiKeyDB.PREFIX ++ [Seg.str "x"]),
        { id := "x", key := "oldk", isEnabled := false, isDefault := false,
          createdAt := 2, requestCount := 7 })] }).1 (by decide) (by decide)

/-! C1: the log retention cap. -/

/-- Every scanned log row sits at its canonical key
[prefix, timestamp, id].  This holds for every store reachable through
RequestLogDB.add (which writes at exactly that key), and it is what
cleanup's delete-by-reconstructed-key relies on. -/
def WellKeyedLogs (s : Store RequestLog) : Prop :=
  ∀ e ∈ s, (makeKey RequestLogDB.PREFIX).isPrefixOf e.1 = true →
    e.1 = RequestLogDB.logKey e.2.timestamp e.2.id

theorem isPrefixOf_logKey (t : Nat) (id : String) :
    (makeKey RequestLogDB.PREFIX).isPrefixOf (RequestLogDB.logKey t id) = true := by
  have h : RequestLogDB.logKey t id =
      "logs".toList ++ ':' :: ((Nat.repr t).toList ++ ':' :: id.toList) := rfl
  rw [h]
  exact isPrefixOf_append_self _ _

theorem wellKeyed_kvSet (s : Store RequestLog) (d : RequestLog)
    (h : WellKeyedLogs s) :
    WellKeyedLogs (kvSet s (RequestLogDB.logKey d.timestamp d.id) d) := by
  intro e he hpre
  unfold kvSet at he
  by_cases hc : s.any (fun e => decide (e.1 = RequestLogDB.logKey d.timestamp d.id)) = true
  · rw [if_pos hc] at he
    obtain ⟨e0, he0, rfl⟩ := List.mem_map.mp he
    by_cases he0k : e0.1 = RequestLogDB.logKey d.timestamp d.id
    · rw [if_pos he0k]
    · rw [if_neg he0k]
      rw [if_neg he0k] at hpre
      exact h e0 he0 hpre
  · rw [if_neg hc] at he
    rcases List.mem_append.mp he with he1 | he2
    · exact h e he1 hpre
    · rcases List.mem_singleton.mp he2 with rfl
      rfl

theorem foldl_kvDelete_filter {V β : Type} (f : β → Key) (D : List β) (s : Store V) :
    D.foldl (fun st x => kvDelete st (f x)) s =
      s.filter (fun e => D.all (fun x => decide (¬ e.1 = f x))) := by
  induction D generalizing s with
  | nil => simp
  | cons x D ih =>
    rw [List.foldl_cons, ih]
    unfold kvDelete
    rw [List.filter_filter]
    apply List.filter_congr
    intro e _he
    rw [List.all_cons, Bool.and_comm]

theorem wellKeyed_cleanup (N : Nat) (s : Store RequestLog) (h : WellKeyedLogs s) :
    WellKeyedLogs (RequestLogDB.cleanup N s) := by
  simp only [RequestLogDB.cleanup]
  by_cases hle : ((kvList s (makeKey RequestLogDB.PREFIX)).map (·.2)).length ≤ N
  · rw [if_pos hle]
    exact h
  · rw [if_neg hle, foldl_kvDelete_filter]
    intro e he hpre
    exact h e (List.mem_filter.mp he).1 hpre

theorem cleanup_bound (N : Nat) (s : Store RequestLog) (hwk : WellKeyedLogs s) :
    (kvList (RequestLogDB.cleanup N s) (makeKey RequestLogDB.PREFIX)).length ≤ N := by
  simp only [RequestLogDB.cleanup]
  by_cases hle : ((kvList s (makeKey RequestLogDB.PREFIX)).map (·.2)).length ≤ N
  · rw [if_pos hle]
    rw [List.length_map] at hle
    exact hle
  · rw [if_neg hle, foldl_kvDelete_filter]
    unfold kvList
    rw [← List.countP_eq_length_filter, List.countP_filter]
    have step1 : List.countP (fun e =>
        (makeKey RequestLogDB.PREFIX).isPrefixOf e.1 &&
          ((sortJS (fun a b => decide (b.timestamp < a.timestamp))
              ((kvList s (makeKey RequestLogDB.PREFIX)).map (·.2))).drop N).all
            (fun x => decide (¬ e.1 = RequestLogDB.logKey x.timestamp x.id))) s ≤
        List.countP (fun e =>
          ((sortJS (fun a b => decide (b.timestamp < a.timestamp))
              ((kvList s (makeKey RequestLogDB.PREFIX)).map (·.2))).drop N).all
            (fun x => decide (¬ e.1 = RequestLogDB.logKey x.timestamp x.id)) &&
          (makeKey RequestLogDB.PREFIX).isPrefixOf e.1) s := by
      apply List.countP_mono_left
      intro e _he hb
      rw [Bool.and_comm]
      exact hb
    refine le_trans step1 ?_
    rw [← List.countP_filter]
    have step2 : List.countP (fun e =>
        ((sortJS (fun a b => decide (b.timestamp < a.timestamp))
            ((kvList s (makeKey RequestLogDB.PREFIX)).map (·.2))).drop N).all
          (fun x => decide (¬ e.1 = RequestLogDB.logKey x.timestamp x.id)))
        (s.filter (fun e => (makeKey RequestLogDB.PREFIX).isPrefixOf e.1)) ≤
        List.countP (fun e => decide (e.2 ∉
          (sortJS (fun a b => decide (b.timestamp < a.timestamp))
            ((kvList s (makeKey RequestLogDB.PREFIX)).map (·.2))).drop N))
          (s.filter (fun e => (makeKey RequestLogDB.PREFIX).isPrefixOf e.1)) := by
      apply List.countP_mono_left
      intro e he hall
      rcases List.mem_filter.mp he with ⟨hes, hpre⟩
      have hk := hwk e hes hpre
      simp only [decide_eq_true_eq]
      intro hmem
      have := List.all_eq_true.mp hall e.2 hmem
      rw [decide_eq_true_eq] at this
      exact this hk
    refine le_trans step2 ?_
    have step3 : List.countP (fun e => decide (e.2 ∉
        (sortJS (fun a b => decide (b.timestamp < a.timestamp))
          ((kvList s (makeKey RequestLogDB.PREFIX)).map (·.2))).drop N))
        (s.filter (fun e => (makeKey RequestLogDB.PREFIX).isPrefixOf e.1)) =
        List.countP (fun v => decide (v ∉
          (sortJS (fun a b => decide (b.timestamp < a.timestamp))
            ((kvList s (makeKey RequestLogDB.PREFIX)).map (·.2))).drop N))
          ((kvList s (makeKey RequestLogDB.PREFIX)).map (·.2)) := by
      rw [List.countP_map]
      rfl
    rw [step3]
    have hperm := sortJS_perm (fun (a b : RequestLog) => decide (b.timestamp < a.timestamp))
      ((kvList s (makeKey RequestLogDB.PREFIX)).map (·.2))
    rw [← hperm.countP_eq]
    generalize hD : (sortJS (fun (a b : RequestLog) => decide (b.timestamp < a.timestamp))
        ((kvList s (makeKey RequestLogDB.PREFIX)).map (·.2))).drop N = D
    conv_lhs => rw [← List.take_append_drop N
      (sortJS (fun a b => decide (b.timestamp < a.timestamp))
        ((kvList s (makeKey RequestLogDB.PREFIX)).map (·.2)))]
    rw [List.countP_append]
    have hdrop : List.countP (fun v => decide (v ∉ D))
        ((sortJS (fun (a b : RequestLog) => decide (b.timestamp < a.timestamp))
          ((kvList s (makeKey RequestLogDB.PREFIX)).map (·.2))).drop N) = 0 := by
      rw [hD, List.countP_eq_zero]
      intro a ha
      simp only [decide_eq_true_eq]
      intro hna
      exact hna ha
    rw [hdrop, Nat.add_zero]
    refine le_trans (List.countP_le_length _) ?_
    rw [List.length_take]
    omega

/-- C1: the retention cap.  First, generally: on any well-keyed store
(every reachable store is well-keyed — add writes at the canonical key
and preserves well-keyedness, as the first conjunct states), after an
append completes, including its eviction pass, the log collection
holds at most N entries.  Second, the concrete spec scenario: with cap
N = 2, appending logs at timestamps t1 < t2 < t3 (distinct backend
keys, as distinct UUID ids guarantee) starting from the empty store
leaves exactly the two rows at t2 and t3, and the entry at t1 is no
longer retrievable. -/
theorem C1_retention_cap :
    (∀ (N : Nat) (d : RequestLogData) (newId : String) (s : Store RequestLog),
      WellKeyedLogs s →
      WellKeyedLogs (RequestLogDB.add N d newId s) ∧
      (kvList (RequestLogDB.add N d newId s) (makeKey RequestLogDB.PREFIX)).length ≤ N) ∧
    (∀ (t1 t2 t3 : Nat) (p1 p2 p3 id1 id2 id3 : String),
      t1 < t2 → t2 < t3 →
      RequestLogDB.logKey t1 id1 ≠ RequestLogDB.logKey t2 id2 →
      RequestLogDB.logKey t1 id1 ≠ RequestLogDB.logKey t3 id3 →
      RequestLogDB.logKey t2 id2 ≠ RequestLogDB.logKey t3 id3 →
      RequestLogDB.add 2 ⟨t3, p3⟩ id3 (RequestLogDB.add 2 ⟨t2, p2⟩ id2
          (RequestLogDB.add 2 ⟨t1, p1⟩ id1 [])) =
        [(RequestLogDB.logKey t2 id2, { id := id2, timestamp := t2, path := p2 }),
         (RequestLogDB.logKey t3 id3, { id := id3, timestamp := t3, path := p3 })] ∧
      kvGet (RequestLogDB.add 2 ⟨t3, p3⟩ id3 (RequestLogDB.add 2 ⟨t2, p2⟩ id2
          (RequestLogDB.add 2 ⟨t1, p1⟩ id1 [])))
        (RequestLogDB.logKey t1 id1) = none) := by
  constructor
  · intro N d newId s hwk
    constructor
    · unfold RequestLogDB.add
      exact wellKeyed_cleanup N _ (wellKeyed_kvSet s _ hwk)
    · unfold RequestLogDB.add
      exact cleanup_bound N _ (wellKeyed_kvSet s _ hwk)
  · intro t1 t2 t3 p1 p2 p3 id1 id2 id3 h12 h23 hk12 hk13 hk23
    have h1 : RequestLogDB.add 2 ⟨t1, p1⟩ id1 [] =
        [(RequestLogDB.logKey t1 id1, { id := id1, timestamp := t1, path := p1 })] := by
      simp [RequestLogDB.add, RequestLogDB.cleanup, kvSet, kvList, isPrefixOf_logKey]
    have h2 : RequestLogDB.add 2 ⟨t2, p2⟩ id2
        [(RequestLogDB.logKey t1 id1, { id := id1, timestamp := t1, path := p1 })] =
        [(RequestLogDB.logKey t1 id1, { id := id1, timestamp := t1, path := p1 }),
         (RequestLogDB.logKey t2 id2, { id := id2, timestamp := t2, path := p2 })] := by
      simp [RequestLogDB.add, RequestLogDB.cleanup, kvSet, kvList, isPrefixOf_logKey, hk12]
    have h3 : RequestLogDB.add 2 ⟨t3, p3⟩ id3
        [(RequestLogDB.logKey t1 id1, { id := id1, timestamp := t1, path := p1 }),
         (RequestLogDB.logKey t2 id2, { id := id2, timestamp := t2, path := p2 })] =
        [(RequestLogDB.logKey t2 id2, { id := id2, timestamp := t2, path := p2 }),
         (RequestLogDB.logKey t3 id3, { id := id3, timestamp := t3, path := p3 })] := by
      simp [RequestLogDB.add, RequestLogDB.cleanup, kvSet, kvList, isPrefixOf_logKey,
        hk13, hk23, sortJS, insertStable, h12, h23, kvDelete,
        Ne.symm hk12, Ne.symm hk13]
    rw [h1, h2, h3]
    refine ⟨rfl, ?_⟩
    simp [kvGet, Ne.symm hk12, Ne.symm hk13]

/-- Witness for C1: concrete appends at timestamps 1 < 2 < 3 with cap 2
from the empty store, plus the general bound applied to one concrete
append. -/
theorem C1_retention_cap_witness :
    (RequestLogDB.add 2 ⟨3, "p3"⟩ "c" (RequestLogDB.add 2 ⟨2, "p2"⟩ "b"
        (RequestLogDB.add 2 ⟨1, "p1"⟩ "a" [])) =
      [(RequestLogDB.logKey 2 "b", { id := "b", timestamp := 2, path := "p2" }),
       (RequestLogDB.logKey 3 "c", { id := "c", timestamp := 3, path := "p3" })] ∧
    kvGet (RequestLogDB.add 2 ⟨3, "p3"⟩ "c" (RequestLogDB.add 2 ⟨2, "p2"⟩ "b"
        (RequestLogDB.add 2 ⟨1, "p1"⟩ "a" [])))
      (RequestLogDB.logKey 1 "a") = none) ∧
    (kvList (RequestLogDB.add 2 ⟨4, "p4"⟩ "d" [])
      (makeKey RequestLogDB.PREFIX)).length ≤ 2 :=
  ⟨C1_retention_cap.2 1 2 3 "p1" "p2" "p3" "a" "b" "c" (by decide) (by decide)
      (by decide) (by decide) (by decide),
    (C1_retention_cap.1 2 ⟨4, "p4"⟩ "d" []
      (fun e he => absurd he (List.not_mem_nil e))).2⟩
